import Mathlib

/-!
Verification development for the LSCP outlier-ensemble combiner found in
`examples/temp_do_not_use_lscp.py`.

The Python source is shallowly embedded over `List ℚ` matrices (rows of
rationals).  Machine floats are idealised as rationals; the excluded library
collaborators named by the specification (the column standardizer, the base
detectors, and the Pearson correlation utility) are passed as explicit
function parameters, constrained only by the contracts the specification
gives them.  Library primitives whose behaviour the source relies on
(numpy `randint`, sklearn `sample_without_replacement`, the KDTree query,
numpy `histogram`) are modelled concretely below, each with a comment
stating exactly which behaviour of the primitive is captured.
-/

namespace LSCPModel

/-- Number of columns of a matrix stored as a list of rows (numpy `shape[1]`). -/
def ncols (m : List (List ℚ)) : ℕ := (m.headD []).length

/-- numpy fancy indexing `v[idx]` of a vector by a list of row indices. -/
def selectIdx (v : List ℚ) (idx : List ℕ) : List ℚ := idx.map (fun i => v.getD i 0)

/-- numpy row selection `m[idx, :]`. -/
def selectRows (m : List (List ℚ)) (idx : List ℕ) : List (List ℚ) :=
  idx.map (fun i => m.getD i [])

/-- Column `d` of a matrix, `m[:, d]`. -/
def column (m : List (List ℚ)) (d : ℕ) : List ℚ := m.map (fun r => r.getD d 0)

/-- numpy `mean` of a vector (0 for the empty vector, since `x / 0 = 0` in ℚ). -/
def qmean (l : List ℚ) : ℚ := l.sum / l.length

/-- Squared euclidean distance between two feature vectors. -/
def sqdist (u v : List ℚ) : ℚ := (List.zipWith (fun a b => (a - b) ^ 2) u v).sum

/-- Projection of a row onto a feature index list, numpy `row[features]`. -/
def proj (row : List ℚ) (feats : List ℕ) : List ℚ := feats.map (fun f => row.getD f 0)

/-- The distinct elements of a list in order of first occurrence.  This is the
key order of `collections.Counter(l).items()`: Python dictionaries preserve
insertion order, and `Counter` inserts a key when it is first counted. -/
def pyDedup : List ℕ → List ℕ
  | [] => []
  | a :: l => a :: pyDedup (l.filter (fun b => b != a))
termination_by l => l.length
decreasing_by
  simp only [List.length_cons]
  exact Nat.lt_succ_of_le (List.length_filter_le _ _)

theorem pyDedup_append_subset :
    ∀ (l m : List ℕ), (∀ a ∈ m, a ∈ l) → pyDedup (l ++ m) = pyDedup l := by
  have key : ∀ (n : ℕ) (l m : List ℕ), l.length ≤ n →
      (∀ a ∈ m, a ∈ l) → pyDedup (l ++ m) = pyDedup l := by
    intro n
    induction n with
    | zero =>
      intro l m hl hsub
      have hl0 : l = [] := List.length_eq_zero.mp (Nat.le_zero.mp hl)
      subst hl0
      have hm0 : m = [] := by
        cases m with
        | nil => rfl
        | cons a t => exact absurd (hsub a (by simp)) (by simp)
      subst hm0
      rfl
    | succ n ih =>
      intro l m hl hsub
      cases l with
      | nil =>
        have hm0 : m = [] := by
          cases m with
          | nil => rfl
          | cons a t => exact absurd (hsub a (by simp)) (by simp)
        subst hm0
        rfl
      | cons a t =>
        have h1 : pyDedup ((a :: t) ++ m) =
            a :: pyDedup ((t ++ m).filter (fun b => b != a)) := by
          simp [pyDedup]
        rw [h1, List.filter_append]
        have h2 : pyDedup (t.filter (fun b => b != a) ++ m.filter (fun b => b != a)) =
            pyDedup (t.filter (fun b => b != a)) := by
          apply ih
          · exact Nat.le_trans (List.length_filter_le _ _) (Nat.lt_succ_iff.mp hl)
          · intro b hb
            simp only [List.mem_filter, bne_iff_ne, ne_eq] at hb ⊢
            rcases hb with ⟨hbm, hba⟩
            have := hsub b hbm
            simp only [List.mem_cons] at this
            exact ⟨this.resolve_left hba, hba⟩
        rw [h2]
        simp [pyDedup]
  exact fun l m h => key l.length l m le_rfl h

theorem pyDedup_eq_self_of_nodup : ∀ {l : List ℕ}, l.Nodup → pyDedup l = l := by
  intro l
  induction l with
  | nil => intro _; simp [pyDedup]
  | cons a t ih =>
    intro h
    rcases List.nodup_cons.mp h with ⟨ha, ht⟩
    have hf : t.filter (fun b => b != a) = t := by
      apply List.filter_eq_self.mpr
      intro b hb
      simp only [bne_iff_ne, ne_eq, decide_eq_true_eq]
      intro hba
      exact ha (hba ▸ hb)
    simp [pyDedup, hf, ih ht]

theorem pyDedup_flatten_replicate (T : ℕ) (K : List ℕ) (hT : 1 ≤ T) :
    pyDedup (List.replicate T K).flatten = pyDedup K := by
  obtain ⟨T', rfl⟩ : ∃ T', T = T' + 1 := ⟨T - 1, by omega⟩
  rw [List.replicate_succ, List.flatten_cons]
  apply pyDedup_append_subset
  intro a ha
  rcases List.mem_flatten.mp ha with ⟨L, hL, haL⟩
  rwa [List.eq_of_mem_replicate hL] at haL

theorem count_flatten_replicate (T : ℕ) (K : List ℕ) (a : ℕ) :
    (List.replicate T K).flatten.count a = T * K.count a := by
  rw [List.count_flatten, List.map_replicate]
  simp [List.sum_replicate]

/-- Models `numpy.random.RandomState(seed).randint(lo, hi)` for `lo < hi`: a
seed-determined value in the half-open interval `[lo, hi)` (the upper bound is
exclusive in numpy).  The source always reaches this call through
`check_random_state(self.random_state)` with `self.random_state` an integer
(default 42), which re-creates a fresh `RandomState` from that same integer on
every call, so the draw is a pure function of the integer seed. -/
def np_randint (lo hi seed : ℕ) : ℕ := lo + seed % (hi - lo)

theorem np_randint_mem (lo hi seed : ℕ) (h : lo < hi) :
    lo ≤ np_randint lo hi seed ∧ np_randint lo hi seed < hi := by
  unfold np_randint
  have := Nat.mod_lt seed (y := hi - lo) (by omega)
  omega

/-- Models `sklearn.utils.random.sample_without_replacement(n, k, random_state)`:
a seed-determined list of `k` distinct indices drawn from `[0, n)` (for
`k ≤ n`).  A rotation of `range n` is one faithful realisation of the
contract: the result has length `min k n`, is duplicate-free and all its
members are below `n`. -/
def sample_without_replacement (n k seed : ℕ) : List ℕ :=
  ((List.range n).rotate seed).take k

/-- Source `_generate_indices`: with `bootstrap` the indices are drawn with
replacement by repeated `randint(0, n_population)` calls, otherwise without
replacement.  The LSCP class always calls this with `bootstrap = false`. -/
def _generate_indices (seed : ℕ) (bootstrap : Bool) (n_population n_samples : ℕ) :
    List ℕ :=
  if bootstrap then
    (List.range n_samples).map (fun i => np_randint 0 n_population (seed + i))
  else
    sample_without_replacement n_population n_samples seed

/-- Source `generate_bagging_indices`: draw a feature-subset size
`random_n_features` uniformly from `[min_features, max_features)` and then
that many distinct feature indices from `[0, n_features)`.  The two successive
draws from the same `RandomState` stream are modelled by the seed and its
successor. -/
def generate_bagging_indices (seed : ℕ) (bootstrap_features : Bool)
    (n_features min_features max_features : ℕ) : List ℕ :=
  let random_n_features := np_randint min_features max_features seed
  _generate_indices (seed + 1) bootstrap_features n_features random_n_features

/-- The two consecutive clamp lines of `decision_function`:
`size = min(size, local_region_min)` followed by
`size = max(size, local_region_max)`. -/
def clamped_region_size (size mn mx : ℤ) : ℤ := max (min size mn) mx

/-- The mutable object state of an `LSCP` instance.  The first block holds the
configuration fields set by `__init__`; the last four fields are the training
artifacts produced by `fit` (empty before `fit` is called).  The list of base
detectors itself is excluded (spec: opaque collaborators); only its length
`n_clf` is recorded, and detector score functions are passed to
`decision_function` explicitly. -/
structure LSCPState where
  n_clf : ℕ
  n_iterations : ℕ
  local_region_size : ℤ
  local_region_min : ℤ
  local_region_max : ℤ
  local_max_features : ℚ
  local_min_features : ℚ
  local_region_iterations : ℕ
  local_region_threshold : ℕ
  n_bins : ℕ
  n_selected : ℕ
  random_state : ℕ
  n_features_ : ℕ
  X_train_norm_ : List (List ℚ)
  train_scores_norm_ : List (List ℚ)
  training_pseudo_label_ : List ℚ

/-- Error raised by the constructor (the `assert` on the estimator-list
length; the spec taxonomy calls it `InvalidArgument`). -/
inductive InitError where
  | InvalidArgument : String → InitError

/-- Source `LSCP.__init__`.  Field assignments come first, then the assert on
the detector count, then the `n_bins >= n_clf` check which warns and lowers
`n_bins` to `n_clf`.  The returned Bool records whether the warning was
emitted.  The trailing `check_estimator` loop over the detectors is
scikit-learn validation boilerplate excluded by the spec.  Note the hardcoded
`local_region_iterations = 20` and
`local_region_threshold = int(local_region_iterations / 2)`;
the configured `n_iterations` is stored but used nowhere else. -/
def LSCP.init (n_estimators n_iterations : ℕ) (local_region_size : ℤ)
    (local_max_features : ℚ) (n_bins : ℕ) (random_state : ℕ) :
    Except InitError (LSCPState × Bool) :=
  if n_estimators ≤ 1 then
    .error (.InvalidArgument "The estimator list has less than 2 estimators.")
  else
    .ok ({ n_clf := n_estimators
           n_iterations := n_iterations
           local_region_size := local_region_size
           local_region_min := 30
           local_region_max := 100
           local_max_features := local_max_features
           local_min_features := 1 / 2
           local_region_iterations := 20
           local_region_threshold := 20 / 2
           n_bins := if n_estimators ≤ n_bins then n_estimators else n_bins
           n_selected := 1
           random_state := random_state
           n_features_ := 0
           X_train_norm_ := []
           train_scores_norm_ := []
           training_pseudo_label_ := [] },
         decide (n_estimators ≤ n_bins))

/-- Squared distance from test point `x` to training row `i`, both restricted
to the sampled feature subset, as used by the KDTree built on
`X_train_norm_[:, features]` and queried with `X_test_norm[:, features]`. -/
def distTo (train : List (List ℚ)) (feats : List ℕ) (x : List ℚ) (i : ℕ) : ℚ :=
  sqdist (proj (train.getD i []) feats) (proj x feats)

/-- Nearest-first ordering on training-row indices: strictly closer rows come
first, ties are broken by the smaller index (the deterministic order a KDTree
query realises). -/
def knnLE (d : ℕ → ℚ) (i j : ℕ) : Prop := d i < d j ∨ (d i = d j ∧ i ≤ j)

instance (d : ℕ → ℚ) : DecidableRel (knnLE d) := fun i j => by
  unfold knnLE
  infer_instance

/-- Models `KDTree(train[:, feats]).query(x[feats], k)[1]`: the indices of the
`k` training rows nearest to `x` in euclidean distance over the selected
features (squared distances order identically). -/
def knnQuery (train : List (List ℚ)) (feats : List ℕ) (x : List ℚ) (k : ℕ) :
    List ℕ :=
  (List.insertionSort (knnLE (distTo train feats x)) (List.range train.length)).take k

/-- The lower sampling bound `int(X_train.shape[1] * local_min_features)` of
`_get_local_region` (the fraction is nonnegative, so `int` truncation is the
floor). -/
def region_min_features (st : LSCPState) : ℕ :=
  (⌊st.local_min_features * (ncols st.X_train_norm_ : ℚ)⌋).toNat

/-- The feature subset one pass of `_get_local_region` samples.  The source
computes this inside the pass loop, but hands `generate_bagging_indices` the
stored integer seed `self.random_state` each time, so every pass draws from a
freshly re-seeded generator (see `np_randint`). -/
def region_features (st : LSCPState) : List ℕ :=
  generate_bagging_indices st.random_state false (ncols st.X_train_norm_)
    (region_min_features st) (ncols st.X_train_norm_)

/-- The accumulated neighbor multiset `grid[j]` for one test row: the
concatenation, over the `local_region_iterations` passes, of the
`local_region_size` nearest training indices under that pass, with the feature
draw written inside the pass loop exactly as in the source. -/
def region_grid (st : LSCPState) (x : List ℚ) : List ℕ :=
  ((List.range st.local_region_iterations).map (fun _t =>
    knnQuery st.X_train_norm_ (region_features st) x st.local_region_size.toNat)).flatten

/-- Source `LSCP._get_local_region`: accumulate neighbor indices over the
passes, then keep, in `Counter` item order, the indices whose accumulated
count exceeds `local_region_threshold`. -/
def _get_local_region (st : LSCPState) (X_test : List (List ℚ)) : List (List ℕ) :=
  X_test.map (fun x =>
    (pyDedup (region_grid st x)).filter
      (fun a => decide (st.local_region_threshold < (region_grid st x).count a)))

/-- Smallest element of a nonempty list (numpy `min`; 0 for the empty list,
which the source never reaches). -/
def listMin : List ℚ → ℚ
  | [] => 0
  | a :: t => t.foldl min a

/-- Largest element of a nonempty list (numpy `max`). -/
def listMax : List ℚ → ℚ
  | [] => 0
  | a :: t => t.foldl max a

/-- The bin range of `np.histogram(scores, bins)`: `[min scores, max scores]`,
widened to `[min - 0.5, max + 0.5]` when the two coincide (numpy widens a
zero-width range exactly this way). -/
def np_histogram_range (scores : List ℚ) : ℚ × ℚ :=
  if listMin scores = listMax scores then
    (listMin scores - 1 / 2, listMax scores + 1 / 2)
  else
    (listMin scores, listMax scores)

/-- Edge `i` of the equal-width binning of `[lo, hi]` into `nbins` bins. -/
def bin_edge (lo hi : ℚ) (nbins i : ℕ) : ℚ := lo + i * ((hi - lo) / nbins)

/-- Membership of value `v` in histogram bin `i`: bins are half-open except
the last, which is closed (numpy convention). -/
def in_bin (lo hi : ℚ) (nbins i : ℕ) (v : ℚ) : Bool :=
  if i + 1 = nbins then
    decide (bin_edge lo hi nbins i ≤ v ∧ v ≤ bin_edge lo hi nbins (i + 1))
  else
    decide (bin_edge lo hi nbins i ≤ v ∧ v < bin_edge lo hi nbins (i + 1))

/-- The bin counts of `np.histogram(scores, bins = nbins)`. -/
def np_histogram_counts (scores : List ℚ) (nbins : ℕ) : List ℕ :=
  (List.range nbins).map (fun b =>
    scores.countP
      (in_bin (np_histogram_range scores).1 (np_histogram_range scores).2 nbins b))

/-- Modelled from the spec: `pyod.utils.utility.argmaxn` (its code is not in
this repository).  The spec describes it as top-n index selection over bin
counts, ties broken by the underlying top-k primitive in an order that is not
significant; here the indices are ordered by descending count and the first
`p` are returned. -/
def argmaxn (l : List ℕ) (p : ℕ) : List ℕ :=
  (List.insertionSort (fun i j => l.getD j 0 ≤ l.getD i 0) (List.range l.length)).take p

/-- Source `LSCP._get_competent_detectors`: histogram the per-detector scores,
take the `n_selected` fullest bins, and return every detector index whose
score lies in a selected bin, both bin edges inclusive. -/
def _get_competent_detectors (n_bins n_selected : ℕ) (scores : List ℚ) : List ℕ :=
  let lo := (np_histogram_range scores).1
  let hi := (np_histogram_range scores).2
  let max_bins := argmaxn (np_histogram_counts scores n_bins) n_selected
  (max_bins.map (fun b =>
    (List.range scores.length).filter (fun j =>
      decide (bin_edge lo hi n_bins b ≤ scores.getD j 0 ∧
        scores.getD j 0 ≤ bin_edge lo hi n_bins (b + 1))))).flatten

/-- The per-row competence vector of `decision_function`: for each detector
`d`, the Pearson correlation between the pseudo ground truth and the training
scores of `d`, both restricted to the local region `ind_k`.  The correlation
utility (spec: `pearson(vector, vector)` returning a value in `[-1, 1]` or a
defined undefined signal for degenerate input) is a parameter; its undefined
signal is `none`.  The source stores `pearsonr(...)[0]` directly, with no
degenerate-input fallback of its own. -/
def pearson_corr_scores (pearson : List ℚ → List ℚ → Option ℚ)
    (st : LSCPState) (ind_k : List ℕ) : List (Option ℚ) :=
  let local_pseudo := selectIdx st.training_pseudo_label_ ind_k
  let local_scores := selectRows st.train_scores_norm_ ind_k
  (List.range st.n_clf).map (fun d => pearson local_pseudo (column local_scores d))

/-- The final score of one test row: the mean of the standardized test scores
of the selected detectors.  When any competence entry is the undefined signal,
the source would feed a NaN into `np.histogram`, which raises and aborts the
batch; that outcome is marked `none` here. -/
def row_score (st : LSCPState) (test_row : List ℚ) (corr : List (Option ℚ)) :
    Option ℚ :=
  if corr.all (fun c => c.isSome) then
    some (qmean (selectIdx test_row
      (_get_competent_detectors st.n_bins st.n_selected (corr.map (fun c => c.getD 0)))))
  else
    none

/-- Source `LSCP.decision_function`.  Parameters: `stdz` is the excluded
column standardizer (spec: zero-mean unit-variance per column, zeros for a
zero-variance column), `predicts` the score functions of the base detectors,
`pearson` the correlation utility.  After the feature-count check the method
reassigns `self.local_region_size` through the two clamp lines and then scores
every row; the returned state is the mutated `self`. -/
def decision_function (stdz : List (List ℚ) → List (List ℚ))
    (predicts : List (List (List ℚ) → List ℚ))
    (pearson : List ℚ → List ℚ → Option ℚ)
    (st : LSCPState) (X : List (List ℚ)) :
    Except String (LSCPState × List (Option ℚ)) :=
  if ncols X ≠ st.n_features_ then
    .error "Number of features of the model must match the input."
  else
    let st1 := { st with
      local_region_size :=
        clamped_region_size st.local_region_size st.local_region_min st.local_region_max }
    let X_test_norm := stdz X
    let ind_arr := _get_local_region st1 X_test_norm
    let test_scores :=
      (List.range X_test_norm.length).map (fun i => predicts.map (fun p => (p X_test_norm).getD i 0))
    let test_scores_norm := stdz test_scores
    .ok (st1, (List.range X_test_norm.length).map (fun i =>
      row_score st1 (test_scores_norm.getD i [])
        (pearson_corr_scores pearson st1 (ind_arr.getD i []))))

/-- A small fitted state used by concrete instances: two detectors, one
feature, a single (standardized-to-zero) training row, configured
`local_region_size = 50` (inside the documented `[30, 100]` interval). -/
def demoState : LSCPState :=
  { n_clf := 2, n_iterations := 20, local_region_size := 50, local_region_min := 30,
    local_region_max := 100, local_max_features := 1, local_min_features := 1 / 2,
    local_region_iterations := 20, local_region_threshold := 10, n_bins := 2,
    n_selected := 1, random_state := 42, n_features_ := 1, X_train_norm_ := [[0]],
    train_scores_norm_ := [[0, 0]], training_pseudo_label_ := [0] }

/-- A standardizer instance for the concrete runs below: on a single-row
matrix every column is constant, and the standardizer contract sends
zero-variance columns to zero. -/
def zeroStdz : List (List ℚ) → List (List ℚ) :=
  fun m => m.map (fun r => r.map (fun _ => 0))

/-- Two stub base detectors (the spec treats detectors as opaque score
functions, so any function is an admissible instance). -/
def twoDetectors : List (List (List ℚ) → List ℚ) := [fun _ => [0], fun _ => [1]]

/-- A correlation-utility instance realising the contract clause used below:
undefined signal on vectors shorter than 2. -/
def pearsonShort : List ℚ → List ℚ → Option ℚ :=
  fun x _ => if x.length < 2 then none else some 0

/-- C1 (code bug): the effective local region size is not the clamp of the
configured value into [region_min, region_max].  The two source lines
`size = min(size, 30); size = max(size, 100)` force the effective size to 100
for every configured value; in particular a configured size of 50, already
inside the interval, becomes 100 instead of staying 50. -/
theorem c1_region_size_clamp_bug :
    clamped_region_size 50 30 100 = 100 ∧ ∀ s : ℤ, clamped_region_size s 30 100 = 100 := by
  unfold clamped_region_size
  exact ⟨by omega, fun s => by omega⟩

/-- C4 counterexample: constructing with `n_iterations = 5` still leaves the
number of local-region discovery passes at the hardcoded 20, so
`n_iterations_region = n_iterations` fails. -/
theorem c4_n_iterations_ignored_cex :
    (LSCP.init 2 5 30 1 10 42).map (fun p => p.1.local_region_iterations) =
        Except.ok 20 ∧ (20 : ℕ) ≠ 5 :=
  ⟨rfl, by decide⟩

/-- C4 (amended): for every configured `n_iterations`, the constructor stores
that value unused and hardcodes `local_region_iterations = 20` for region
discovery (the loop bound of `_get_local_region`), with consensus threshold
`int(20 / 2)`. -/
theorem c4_region_iterations_hardcoded (n_est n_it : ℕ) (lrs : ℤ) (lmf : ℚ)
    (nb rs : ℕ) (st : LSCPState) (w : Bool)
    (h : LSCP.init n_est n_it lrs lmf nb rs = .ok (st, w)) :
    st.local_region_iterations = 20 ∧ st.local_region_threshold = 20 / 2 ∧
      st.n_iterations = n_it := by
  unfold LSCP.init at h
  split at h
  · exact absurd h (by simp)
  · simp only [Except.ok.injEq, Prod.mk.injEq] at h
    obtain ⟨hst, -⟩ := h
    subst hst
    exact ⟨rfl, rfl, rfl⟩

/-- The state built by `LSCP.init 2 5 30 1 10 42` (note `n_bins` lowered to
`n_clf = 2` by the auto-correction). -/
def stInit5 : LSCPState :=
  { n_clf := 2, n_iterations := 5, local_region_size := 30, local_region_min := 30,
    local_region_max := 100, local_max_features := 1, local_min_features := 1 / 2,
    local_region_iterations := 20, local_region_threshold := 20 / 2, n_bins := 2,
    n_selected := 1, random_state := 42, n_features_ := 0, X_train_norm_ := [],
    train_scores_norm_ := [], training_pseudo_label_ := [] }

/-- Witness for C4 at the concrete constructor call `LSCP.init 2 5 30 1 10 42`. -/
theorem c4_witness :
    LSCP.init 2 5 30 1 10 42 = Except.ok (stInit5, true) ∧
      stInit5.local_region_iterations = 20 ∧ stInit5.n_iterations = 5 :=
  ⟨rfl, (c4_region_iterations_hardcoded 2 5 30 1 10 42 stInit5 true rfl).1,
    (c4_region_iterations_hardcoded 2 5 30 1 10 42 stInit5 true rfl).2.2⟩

/-- C5 counterexample: with 2 features (`min_features = 1`,
`max_features = 2`), no draw of the random state ever yields a subset of all
2 features, because `randint` excludes its upper bound; the claimed
"up to and including all features" fails. -/
theorem c5_all_features_never_drawn_cex :
    ¬ ∃ s : ℕ, (generate_bagging_indices s false 2 1 2).length = 2 := by
  rintro ⟨s, h⟩
  simp [generate_bagging_indices, _generate_indices, sample_without_replacement,
    np_randint, Nat.mod_one, List.length_take, List.length_rotate,
    List.length_range] at h

/-- C5 (amended): each feature subset drawn by `generate_bagging_indices` has
size at least `min_features` and strictly below `n_features`; the subset can
never contain all features, since the size is drawn from the half-open
interval `[min_features, n_features)`. -/
theorem c5_feature_subset_size_bounds (s n mn : ℕ) (h : mn < n) :
    mn ≤ (generate_bagging_indices s false n mn n).length ∧
      (generate_bagging_indices s false n mn n).length < n := by
  have hmem := np_randint_mem mn n s h
  simp only [generate_bagging_indices, _generate_indices, Bool.false_eq_true,
    if_false, sample_without_replacement, List.length_take, List.length_rotate,
    List.length_range]
  omega

/-- Witness for C5 (amended) at `n_features = 2`, `min_features = 1`. -/
theorem c5_witness :
    (1 : ℕ) < 2 ∧ 1 ≤ (generate_bagging_indices 0 false 2 1 2).length ∧
      (generate_bagging_indices 0 false 2 1 2).length < 2 :=
  ⟨by decide, (c5_feature_subset_size_bounds 0 2 1 (by decide)).1,
    (c5_feature_subset_size_bounds 0 2 1 (by decide)).2⟩

/-- C7 counterexample: `decision_function` does not leave the configuration
unchanged.  Before the call the stored `local_region_size` is 50; after the
call it is 100, mutated by the two clamp lines executed on `self`. -/
theorem c7_decision_function_mutates_cex :
    demoState.local_region_size = 50 ∧
      (decision_function zeroStdz twoDetectors pearsonShort demoState [[3]]).map
        (fun p => p.1.local_region_size) = Except.ok 100 :=
  ⟨rfl, rfl⟩

/-- C7 (amended): on any call that passes the feature-count check,
`decision_function` leaves the training set and every configuration field
unchanged except `local_region_size`, which it overwrites with
`max(min(old, local_region_min), local_region_max)` (the structure-update
literal on the right fixes every other field to its prior value). -/
theorem c7_decision_function_frame (stdz : List (List ℚ) → List (List ℚ))
    (predicts : List (List (List ℚ) → List ℚ))
    (pearson : List ℚ → List ℚ → Option ℚ)
    (st : LSCPState) (X : List (List ℚ)) (h : ncols X = st.n_features_) :
    (decision_function stdz predicts pearson st X).map Prod.fst =
      Except.ok { st with
        local_region_size :=
          clamped_region_size st.local_region_size st.local_region_min
            st.local_region_max } := by
  unfold decision_function
  rw [if_neg (by simp [h])]
  rfl

/-- Witness for C7 (amended) at a concrete call on `demoState`. -/
theorem c7_witness :
    ncols [[(3 : ℚ)]] = demoState.n_features_ ∧
      (decision_function zeroStdz twoDetectors pearsonShort demoState [[3]]).map
          Prod.fst =
        Except.ok { demoState with
          local_region_size := clamped_region_size demoState.local_region_size
            demoState.local_region_min demoState.local_region_max } :=
  ⟨rfl, c7_decision_function_frame zeroStdz twoDetectors pearsonShort demoState [[3]] rfl⟩

/-- C9: configuring `n_bins` above `n_clf` warns and lowers the effective bin
count to `n_clf` without failing; configuring it strictly below `n_clf` keeps
the configured value and emits no warning. -/
theorem c9_n_bins_auto_correction (n_est n_it : ℕ) (lrs : ℤ) (lmf : ℚ)
    (nb rs : ℕ) (h2 : 2 ≤ n_est) :
    (n_est < nb →
      (LSCP.init n_est n_it lrs lmf nb rs).map (fun p => (p.1.n_bins, p.2)) =
        Except.ok (n_est, true)) ∧
    (nb < n_est →
      (LSCP.init n_est n_it lrs lmf nb rs).map (fun p => (p.1.n_bins, p.2)) =
        Except.ok (nb, false)) := by
  unfold LSCP.init
  rw [if_neg (by omega)]
  constructor
  · intro h
    simp [Except.map, if_pos (Nat.le_of_lt h), decide_eq_true (Nat.le_of_lt h)]
  · intro h
    have hn : ¬n_est ≤ nb := by omega
    simp [Except.map, if_neg hn, hn]

/-- Witness for C9: 2 detectors with `n_bins = 10` (warned, corrected to 2)
and with `n_bins = 1` (kept, no warning). -/
theorem c9_witness :
    (2 : ℕ) ≤ 2 ∧
      (LSCP.init 2 20 30 1 10 42).map (fun p => (p.1.n_bins, p.2)) =
        Except.ok (2, true) ∧
      (LSCP.init 2 20 30 1 1 42).map (fun p => (p.1.n_bins, p.2)) =
        Except.ok (1, false) :=
  ⟨by decide, (c9_n_bins_auto_correction 2 20 30 1 10 42 (by decide)).1 (by decide),
    (c9_n_bins_auto_correction 2 20 30 1 1 42 (by decide)).2 (by decide)⟩

/-- C10: constructing with at most one detector fails with `InvalidArgument`
(the assert on the estimator-list length); with two or more detectors the
constructor succeeds. -/
theorem c10_detector_count_requirement (n_est n_it : ℕ) (lrs : ℤ) (lmf : ℚ)
    (nb rs : ℕ) :
    (n_est ≤ 1 →
      LSCP.init n_est n_it lrs lmf nb rs =
        .error (.InvalidArgument "The estimator list has less than 2 estimators.")) ∧
    (2 ≤ n_est → ∃ st w, LSCP.init n_est n_it lrs lmf nb rs = .ok (st, w)) := by
  constructor
  · intro h
    unfold LSCP.init
    rw [if_pos h]
  · intro h
    unfold LSCP.init
    rw [if_neg (by omega)]
    exact ⟨_, _, rfl⟩

/-- Witness for C10: one detector fails, two succeed. -/
theorem c10_witness :
    (1 : ℕ) ≤ 1 ∧
      LSCP.init 1 20 30 1 10 42 =
        .error (.InvalidArgument "The estimator list has less than 2 estimators.") ∧
      ∃ st w, LSCP.init 2 20 30 1 10 42 = .ok (st, w) :=
  ⟨by decide, (c10_detector_count_requirement 1 20 30 1 10 42).1 (by decide),
    (c10_detector_count_requirement 2 20 30 1 10 42).2 (by decide)⟩

/-- C2 (code bug): for a local region with fewer than 2 indices the source has
no fallback at all.  Every competence entry of the row is the undefined signal
returned by the correlation utility for too-short input (a NaN in the source),
not the neutral zero the claim describes, and the undefined values flow on
into the histogram step, which aborts the batch. -/
theorem c2_degenerate_region_scores_undefined
    (pearson : List ℚ → List ℚ → Option ℚ)
    (hdeg : ∀ x y, x.length < 2 → pearson x y = none)
    (st : LSCPState) (ind_k : List ℕ) (hk : ind_k.length < 2) :
    pearson_corr_scores pearson st ind_k = List.replicate st.n_clf none := by
  have hall : ∀ y, pearson (selectIdx st.training_pseudo_label_ ind_k) y = none :=
    fun y => hdeg _ y (by simpa [selectIdx] using hk)
  simp [pearson_corr_scores, hall]

/-- Witness for C2: the empty region on `demoState`, with a correlation
utility realising the degenerate-input contract clause. -/
theorem c2_witness :
    ([] : List ℕ).length < 2 ∧
      pearson_corr_scores pearsonShort demoState [] =
        List.replicate demoState.n_clf none :=
  ⟨by decide, c2_degenerate_region_scores_undefined pearsonShort
    (fun x y h => if_pos h) demoState [] (by decide)⟩

/-- A fitted state with two training rows whose pseudo ground truth is
constant (zero variance) on the region `[0, 1]`. -/
def demoState6 : LSCPState :=
  { n_clf := 2, n_iterations := 20, local_region_size := 1, local_region_min := 30,
    local_region_max := 100, local_max_features := 1, local_min_features := 1 / 2,
    local_region_iterations := 20, local_region_threshold := 10, n_bins := 2,
    n_selected := 1, random_state := 42, n_features_ := 1,
    X_train_norm_ := [[0], [1]], train_scores_norm_ := [[0, 5], [0, 7]],
    training_pseudo_label_ := [1, 1] }

/-- A correlation-utility instance that always reports the undefined signal;
it satisfies every contract clause of the form `degenerate input implies
undefined`. -/
def pearsonNone : List ℚ → List ℚ → Option ℚ := fun _ _ => none

/-- C6 (code bug): when the pseudo ground truth has zero variance inside the
local region, the correlation utility reports its undefined signal for every
detector and the source stores it as is.  The competence entries are the
undefined value (a NaN in the source), not the zero the claim describes, and
they reach the histogram step of the competence selector unfiltered. -/
theorem c6_zero_variance_scores_undefined
    (pearson : List ℚ → List ℚ → Option ℚ)
    (hconst : ∀ x y, (∀ a ∈ x, ∀ b ∈ x, a = b) → pearson x y = none)
    (st : LSCPState) (ind_k : List ℕ)
    (hps : ∀ a ∈ selectIdx st.training_pseudo_label_ ind_k,
      ∀ b ∈ selectIdx st.training_pseudo_label_ ind_k, a = b) :
    pearson_corr_scores pearson st ind_k = List.replicate st.n_clf none := by
  have hall : ∀ y, pearson (selectIdx st.training_pseudo_label_ ind_k) y = none :=
    fun y => hconst _ y hps
  simp [pearson_corr_scores, hall]

/-- Witness for C6: region `[0, 1]` of `demoState6`, whose local pseudo
ground truth is the constant vector `[1, 1]`. -/
theorem c6_witness :
    (∀ a ∈ selectIdx demoState6.training_pseudo_label_ [0, 1],
      ∀ b ∈ selectIdx demoState6.training_pseudo_label_ [0, 1], a = b) ∧
      pearson_corr_scores pearsonNone demoState6 [0, 1] =
        List.replicate demoState6.n_clf none :=
  ⟨by decide, c6_zero_variance_scores_undefined pearsonNone
    (fun _ _ _ => rfl) demoState6 [0, 1] (by decide)⟩

theorem knnQuery_nodup (train : List (List ℚ)) (feats : List ℕ) (x : List ℚ)
    (k : ℕ) : (knnQuery train feats x k).Nodup := by
  unfold knnQuery
  exact List.Nodup.sublist (List.take_sublist _ _)
    (((List.perm_insertionSort _ _).nodup_iff).mpr (List.nodup_range _))

theorem getD_map_of_lt {α β : Type} (f : α → β) (l : List α) (j : ℕ) (d : α)
    (d2 : β) (h : j < l.length) : (l.map f).getD j d2 = f (l.getD j d) := by
  rw [List.getD_eq_getElem _ _ (by simpa using h), List.getD_eq_getElem _ _ h]
  simp

/-- C3: with an integer `random_state` (the stored default 42), every one of
the `local_region_iterations` passes re-seeds the generator identically and
samples the same feature subset, so each accumulated neighbor count equals the
full iteration count for exactly the k nearest neighbors under that single
subset and is zero elsewhere; every such neighbor clears the consensus
threshold, and the returned local region is exactly that one
k-nearest-neighbor list — the consensus filter removes nothing. -/
theorem c3_local_region_single_subset_knn (st : LSCPState)
    (X_test : List (List ℚ)) (j : ℕ)
    (hthr : st.local_region_threshold < st.local_region_iterations)
    (hj : j < X_test.length) :
    (∀ i : ℕ, (region_grid st (X_test.getD j [])).count i =
      (if i ∈ knnQuery st.X_train_norm_ (region_features st) (X_test.getD j [])
          st.local_region_size.toNat then st.local_region_iterations else 0)) ∧
    (_get_local_region st X_test).getD j [] =
      knnQuery st.X_train_norm_ (region_features st) (X_test.getD j [])
        st.local_region_size.toNat := by
  have hgrid : ∀ x : List ℚ, region_grid st x =
      (List.replicate st.local_region_iterations
        (knnQuery st.X_train_norm_ (region_features st) x
          st.local_region_size.toNat)).flatten := by
    intro x
    unfold region_grid
    rw [List.map_const', List.length_range]
  have hcount : ∀ (x : List ℚ) (i : ℕ), (region_grid st x).count i =
      (if i ∈ knnQuery st.X_train_norm_ (region_features st) x
          st.local_region_size.toNat then st.local_region_iterations else 0) := by
    intro x i
    rw [hgrid, count_flatten_replicate]
    by_cases hmem : i ∈ knnQuery st.X_train_norm_ (region_features st) x
        st.local_region_size.toNat
    · rw [if_pos hmem, List.count_eq_one_of_mem (knnQuery_nodup _ _ _ _) hmem,
        Nat.mul_one]
    · rw [if_neg hmem, List.count_eq_zero_of_not_mem hmem, Nat.mul_zero]
  refine ⟨hcount _, ?_⟩
  unfold _get_local_region
  rw [getD_map_of_lt _ _ _ [] _ hj]
  rw [hgrid, pyDedup_flatten_replicate _ _ (by omega),
    pyDedup_eq_self_of_nodup (knnQuery_nodup _ _ _ _)]
  apply List.filter_eq_self.mpr
  intro a ha
  rw [decide_eq_true_eq, count_flatten_replicate,
    List.count_eq_one_of_mem (knnQuery_nodup _ _ _ _) ha, Nat.mul_one]
  exact hthr

/-- Witness for C3: a concrete query row against the two-row training set of
`demoState6`. -/
theorem c3_witness :
    demoState6.local_region_threshold < demoState6.local_region_iterations ∧
      0 < ([[(5 : ℚ)]] : List (List ℚ)).length ∧
      (_get_local_region demoState6 [[(5 : ℚ)]]).getD 0 [] =
        knnQuery demoState6.X_train_norm_ (region_features demoState6)
          (([[(5 : ℚ)]] : List (List ℚ)).getD 0 [])
          demoState6.local_region_size.toNat :=
  ⟨by decide, by decide,
    (c3_local_region_single_subset_knn demoState6 [[(5 : ℚ)]] 0 (by decide)
      (by decide)).2⟩

theorem foldl_min_replicate (m : ℕ) (a : ℚ) :
    (List.replicate m a).foldl min a = a := by
  induction m with
  | zero => rfl
  | succ k ih => simp [List.replicate_succ, ih]

theorem foldl_max_replicate (m : ℕ) (a : ℚ) :
    (List.replicate m a).foldl max a = a := by
  induction m with
  | zero => rfl
  | succ k ih => simp [List.replicate_succ, ih]

theorem listMin_replicate (n : ℕ) (c : ℚ) (h : 1 ≤ n) :
    listMin (List.replicate n c) = c := by
  obtain ⟨m, rfl⟩ : ∃ m, n = m + 1 := ⟨n - 1, by omega⟩
  simp [List.replicate_succ, listMin, foldl_min_replicate]

theorem listMax_replicate (n : ℕ) (c : ℚ) (h : 1 ≤ n) :
    listMax (List.replicate n c) = c := by
  obtain ⟨m, rfl⟩ : ∃ m, n = m + 1 := ⟨n - 1, by omega⟩
  simp [List.replicate_succ, listMax, foldl_max_replicate]

theorem range_replicate (n : ℕ) (c : ℚ) (h : 1 ≤ n) :
    np_histogram_range (List.replicate n c) = (c - 1 / 2, c + 1 / 2) := by
  unfold np_histogram_range
  rw [listMin_replicate n c h, listMax_replicate n c h]
  simp

theorem countP_replicate (p : ℚ → Bool) (n : ℕ) (a : ℚ) :
    (List.replicate n a).countP p = if p a then n else 0 := by
  induction n with
  | zero => simp
  | succ m ih =>
    by_cases h : p a <;> simp [List.replicate_succ, List.countP_cons, ih, h]

theorem getD_map_range {β : Type} (f : ℕ → β) (n i : ℕ) (d : β) (h : i < n) :
    ((List.range n).map f).getD i d = f i := by
  rw [List.getD_eq_getElem _ _ (by simpa using h)]
  simp

theorem getD_replicate_lt (n j : ℕ) (c d : ℚ) (h : j < n) :
    (List.replicate n c).getD j d = c := by
  rw [List.getD_eq_getElem _ _ (by simpa using h)]
  simp

theorem argmaxn_one_nonempty (l : List ℕ) (h : l ≠ []) :
    ∃ b, argmaxn l 1 = [b] := by
  unfold argmaxn
  have hlen : (List.insertionSort (fun i j => l.getD j 0 ≤ l.getD i 0)
      (List.range l.length)).length = l.length := by
    rw [(List.perm_insertionSort _ _).length_eq, List.length_range]
  cases hs : List.insertionSort (fun i j => l.getD j 0 ≤ l.getD i 0)
      (List.range l.length) with
  | nil =>
    rw [hs] at hlen
    exact absurd (List.length_eq_zero.mp (by simpa using hlen.symm)) h
  | cons a t => exact ⟨a, by simp⟩

theorem argmaxn_one_spec (l : List ℕ) (b : ℕ) (hb : b ∈ argmaxn l 1) :
    b < l.length ∧ ∀ i, i < l.length → l.getD i 0 ≤ l.getD b 0 := by
  unfold argmaxn at hb
  haveI : IsTotal ℕ (fun i j => l.getD j 0 ≤ l.getD i 0) :=
    ⟨fun a c => le_total (l.getD c 0) (l.getD a 0)⟩
  haveI : IsTrans ℕ (fun i j => l.getD j 0 ≤ l.getD i 0) :=
    ⟨fun _ _ _ hab hbc => le_trans hbc hab⟩
  have hsort := List.sorted_insertionSort (fun i j => l.getD j 0 ≤ l.getD i 0)
    (List.range l.length)
  have hperm := List.perm_insertionSort (fun i j => l.getD j 0 ≤ l.getD i 0)
    (List.range l.length)
  cases hs : List.insertionSort (fun i j => l.getD j 0 ≤ l.getD i 0)
      (List.range l.length) with
  | nil => rw [hs] at hb; simp at hb
  | cons a t =>
    rw [hs] at hb hsort hperm
    have hba : b = a := by simpa using hb
    subst hba
    constructor
    · exact List.mem_range.mp (hperm.mem_iff.mp (by simp))
    · intro i hi
      have himem : i ∈ b :: t := hperm.mem_iff.mpr (List.mem_range.mpr hi)
      rcases List.mem_cons.mp himem with rfl | hit
      · exact le_refl _
      · exact List.rel_of_sorted_cons hsort i hit

theorem in_bin_center (c : ℚ) (nb : ℕ) (h : 1 ≤ nb) :
    in_bin (c - 1 / 2) (c + 1 / 2) nb (nb / 2) c = true := by
  have hnb : (0 : ℚ) < (nb : ℚ) := by exact_mod_cast Nat.pos_of_ne_zero (by omega)
  have hq1 : ((nb / 2 : ℕ) : ℚ) * 2 ≤ (nb : ℚ) := by
    exact_mod_cast Nat.div_mul_le_self nb 2
  have hq2 : (nb : ℚ) < (((nb / 2 : ℕ) : ℚ) + 1) * 2 := by
    have h2 : nb < (nb / 2 + 1) * 2 := by omega
    exact_mod_cast h2
  have hlow : bin_edge (c - 1 / 2) (c + 1 / 2) nb (nb / 2) ≤ c := by
    unfold bin_edge
    have hd : c + 1 / 2 - (c - 1 / 2) = 1 := by ring
    rw [hd]
    have key : ((nb / 2 : ℕ) : ℚ) * (1 / (nb : ℚ)) ≤ 1 / 2 := by
      rw [mul_one_div, div_le_div_iff₀ hnb (by norm_num : (0 : ℚ) < 2)]
      linarith
    linarith
  have hupper : c < bin_edge (c - 1 / 2) (c + 1 / 2) nb (nb / 2 + 1) := by
    unfold bin_edge
    have hd : c + 1 / 2 - (c - 1 / 2) = 1 := by ring
    rw [hd]
    have key : (1 : ℚ) / 2 < (((nb / 2 : ℕ) : ℚ) + 1) * (1 / (nb : ℚ)) := by
      rw [mul_one_div, div_lt_div_iff₀ (by norm_num : (0 : ℚ) < 2) hnb]
      linarith
    push_cast
    linarith
  unfold in_bin
  split
  · simp only [decide_eq_true_eq]
    exact ⟨hlow, le_of_lt hupper⟩
  · simp only [decide_eq_true_eq]
    exact ⟨hlow, hupper⟩

theorem in_bin_le (lo hi : ℚ) (nbins i : ℕ) (v : ℚ)
    (h : in_bin lo hi nbins i v = true) :
    bin_edge lo hi nbins i ≤ v ∧ v ≤ bin_edge lo hi nbins (i + 1) := by
  unfold in_bin at h
  split at h <;> simp only [decide_eq_true_eq] at h
  · exact h
  · exact ⟨h.1, le_of_lt h.2⟩

theorem competent_detectors_all_equal (nb n : ℕ) (c : ℚ) (hb : 1 ≤ nb)
    (hn : 1 ≤ n) :
    _get_competent_detectors nb 1 (List.replicate n c) = List.range n := by
  have hrange := range_replicate n c hn
  have hlen : (np_histogram_counts (List.replicate n c) nb).length = nb := by
    simp [np_histogram_counts]
  have hget : ∀ i, i < nb →
      (np_histogram_counts (List.replicate n c) nb).getD i 0 =
        (if in_bin (c - 1 / 2) (c + 1 / 2) nb i c then n else 0) := by
    intro i hi
    unfold np_histogram_counts
    simp only [getD_map_range _ _ _ _ hi, hrange, countP_replicate]
  have hmid : (np_histogram_counts (List.replicate n c) nb).getD (nb / 2) 0 = n := by
    rw [hget _ (Nat.div_lt_self (by omega) (by omega)),
      if_pos (in_bin_center c nb hb)]
  obtain ⟨b, hb1⟩ := argmaxn_one_nonempty (np_histogram_counts (List.replicate n c) nb)
    (by
      intro h0
      rw [h0] at hlen
      simp at hlen
      omega)
  obtain ⟨hblt, hbmax⟩ := argmaxn_one_spec
    (np_histogram_counts (List.replicate n c) nb) b (by simp [hb1])
  have hblt2 : b < nb := hlen ▸ hblt
  have hbpos : 1 ≤ (np_histogram_counts (List.replicate n c) nb).getD b 0 := by
    have h1 := hbmax (nb / 2) (by rw [hlen]; exact Nat.div_lt_self (by omega) (by omega))
    omega
  have hbin : in_bin (c - 1 / 2) (c + 1 / 2) nb b c = true := by
    by_contra hfalse
    rw [hget b hblt2, if_neg hfalse] at hbpos
    omega
  have hedge := in_bin_le _ _ _ _ _ hbin
  simp only [_get_competent_detectors]
  rw [hb1, hrange]
  simp only [List.map_cons, List.map_nil, List.flatten_cons, List.flatten_nil,
    List.append_nil, List.length_replicate]
  apply List.filter_eq_self.mpr
  intro j hj
  rw [decide_eq_true_eq, getD_replicate_lt _ _ _ _ (List.mem_range.mp hj)]
  exact hedge

/-- C8: for an all-equal competence vector, the histogram collapses to a
single occupied bin, the selector returns every detector index in order, and
the final score of the row is the plain mean of the standardized test scores
over all detectors. -/
theorem c8_all_equal_scores_select_all (st : LSCPState) (n : ℕ) (c : ℚ)
    (row : List ℚ) (hb : 1 ≤ st.n_bins) (hsel : st.n_selected = 1) (hn : 1 ≤ n)
    (hrow : row.length = n) :
    _get_competent_detectors st.n_bins st.n_selected (List.replicate n c) =
        List.range n ∧
      row_score st row (List.replicate n (some c)) = some (qmean row) := by
  have hmain : _get_competent_detectors st.n_bins st.n_selected
      (List.replicate n c) = List.range n := by
    rw [hsel]
    exact competent_detectors_all_equal st.n_bins n c hb hn
  refine ⟨hmain, ?_⟩
  unfold row_score
  have hall : (List.replicate n (some c)).all (fun x => x.isSome) = true := by
    simp [List.all_eq_true]
  rw [if_pos hall]
  have hmap : (List.replicate n (some c)).map (fun x => x.getD 0) =
      List.replicate n c := by
    simp [List.map_replicate]
  rw [hmap, hmain]
  have hsel2 : selectIdx row (List.range n) = row := by
    rw [← hrow]
    apply List.ext_getElem
    · simp [selectIdx]
    · intro i h1 h2
      simp only [selectIdx, List.getElem_map, List.getElem_range]
      exact (List.getD_eq_getElem _ _ h2)
  rw [hsel2]

/-- Witness for C8: three detectors with the constant competence vector
`[1/2, 1/2, 1/2]` on `demoState` (whose `n_bins` is 2 and `n_selected` 1). -/
theorem c8_witness :
    1 ≤ demoState.n_bins ∧ demoState.n_selected = 1 ∧ (1 : ℕ) ≤ 3 ∧
      ([(1 : ℚ), 2, 3]).length = 3 ∧
      _get_competent_detectors demoState.n_bins demoState.n_selected
          (List.replicate 3 (1 / 2 : ℚ)) = List.range 3 ∧
      row_score demoState [(1 : ℚ), 2, 3] (List.replicate 3 (some (1 / 2 : ℚ))) =
        some (qmean [(1 : ℚ), 2, 3]) :=
  ⟨by decide, by decide, by decide, by decide,
    (c8_all_equal_scores_select_all demoState 3 (1 / 2) [(1 : ℚ), 2, 3]
      (by decide) (by decide) (by decide) (by decide)).1,
    (c8_all_equal_scores_select_all demoState 3 (1 / 2) [(1 : ℚ), 2, 3]
      (by decide) (by decide) (by decide) (by decide)).2⟩

end LSCPModel
